import Mathlib

/-!
Verification of the news-aggregation pipeline of `wordpress-auto-publisher`
(`news_fetcher.py`, `auto_publish.py`, `wp_publisher.py`).

Shallow embedding conventions:
* Timestamps (`datetime` values) are modelled as integer seconds on an
  abstract timeline; `datetime` comparison corresponds to integer comparison
  and `timedelta(hours=h)` to `3600 * h`.
* `feedparser` raw entries are modelled by `RawEntry`.  A `published_parsed`
  (resp. `updated_parsed`) field that is absent or falsy is `none`; a present
  truthy field is `some pp`, where `pp : Option Int` is `some t` when
  `datetime(*pp[:6])` succeeds with timestamp `t` and `none` when that
  constructor raises (a malformed time tuple).
* `_clean_html` (HTML entity unescaping, tag stripping, whitespace collapsing)
  is an external text transformation none of the verified claims depend on; it
  is passed as an explicit function argument `clean` so every theorem holds
  for the actual implementation.
* The md5-based fingerprint `NewsItem.id` (a deterministic function of
  `link`) is likewise passed as an explicit function argument `fp`.
* `strftime` rendering is realised over the integer timeline with a
  simplified 360-day calendar; only its determinism (same input, same output)
  and concrete evaluation at witnesses matter for the claims.
* The WordPress sink (`create_post`, raising on a non-201 response) is
  modelled as a function `submit : PostData → Except String PostResult`;
  `Except.error` corresponds to the exception caught by the caller.
-/

/-- Canonical unit of news content (`NewsItem` dataclass in `news_fetcher.py`). -/
structure NewsItem where
  title : String
  link : String
  summary : String
  source : String
  published : Int
deriving DecidableEq, Repr

/-- A raw feed entry as seen by `fetch_rss` (the `feedparser` entry object). -/
structure RawEntry where
  title : Option String
  link : Option String
  summary : Option String
  description : Option String
  published_parsed : Option (Option Int)
  updated_parsed : Option (Option Int)
deriving DecidableEq, Repr

/-- Keyword list `AINewsFetcher.KEYWORDS` from `news_fetcher.py`. -/
def KEYWORDS : List String :=
  ["agent", "ai agent", "llm", "gpt", "claude", "gemini",
   "langchain", "autogpt", "chatgpt", "copilot",
   "大模型", "智能体", "AI助手", "人工智能",
   "anthropic", "openai", "机器人", "自动化"]

/-- Substring test on character lists (Python's `needle in hay` on `str`). -/
def containsSub (needle : List Char) : List Char → Bool
  | [] => needle.isEmpty
  | c :: rest => needle.isPrefixOf (c :: rest) || containsSub needle rest

/-- Python `needle in hay` for strings. -/
def strContains (hay needle : String) : Bool :=
  containsSub needle.toList hay.toList

/-- Python `str.lower()`, realised character-wise (extensionally
`String.toLower`, stated over the character list so that it evaluates inside
the kernel). -/
def pyLower (s : String) : String :=
  ⟨s.data.map Char.toLower⟩

/-- Relevance predicate `AINewsFetcher._is_relevant`: case-insensitive keyword
substring scan over title and summary. -/
def is_relevant (item : NewsItem) : Bool :=
  let text := pyLower (item.title ++ " " ++ item.summary)
  KEYWORDS.any (fun kw => strContains text (pyLower kw))

/-- The time-window test applied in `fetch_all`
(`item.published >= cutoff_time`). -/
def time_pass (cutoff : Int) (item : NewsItem) : Bool :=
  cutoff ≤ item.published

/-- Normalization of one raw entry into a `NewsItem`, the body of the entry
loop of `fetch_rss`.  Returns `none` when the body raises (a present, truthy
but malformed time tuple makes `datetime(*tuple[:6])` raise). -/
def normalizeEntry (clean : String → String) (now : Int) (source : String)
    (e : RawEntry) : Option NewsItem :=
  let published? : Option Int :=
    match e.published_parsed with
    | some pp => pp
    | none =>
      match e.updated_parsed with
      | some up => up
      | none => some now
  published?.map (fun published =>
    { title := e.title.getD "Untitled"
      link := e.link.getD ""
      summary :=
        match e.summary with
        | some s => (clean s).take 500
        | none =>
          match e.description with
          | some d => (clean d).take 500
          | none => ""
      source := source
      published := published })

/-- The entry loop of `fetch_rss`.  The `try` block wraps the whole loop, so
the first entry whose normalization raises ends the loop: the items collected
so far are returned and the remaining entries of this source are dropped. -/
def normalizeLoop (clean : String → String) (now : Int) (source : String) :
    List RawEntry → List NewsItem
  | [] => []
  | e :: es =>
    match normalizeEntry clean now source e with
    | none => []
    | some item => item :: normalizeLoop clean now source es

/-- `AINewsFetcher.fetch_rss`: normalize at most the first 20 entries of one
feed (`feed.entries[:20]`), stopping at the first failing entry. -/
def fetch_rss (clean : String → String) (now : Int)
    (entries : List RawEntry) (source : String) : List NewsItem :=
  normalizeLoop clean now source (entries.take 20)

/-- The deduplication loop of `fetch_all` with its running set of seen
fingerprints (`seen`). -/
def dedupGo (fp : String → String) (seen : List String) :
    List NewsItem → List NewsItem
  | [] => []
  | x :: xs =>
    if fp x.link ∈ seen then dedupGo fp seen xs
    else x :: dedupGo fp (fp x.link :: seen) xs

/-- The deduplication pass of `fetch_all` (seen-fingerprint filtering, first
occurrence kept).  `fp` models `NewsItem.id`, the md5 digest of `link`. -/
def dedup (fp : String → String) (items : List NewsItem) : List NewsItem :=
  dedupGo fp [] items

/-- Stable descending insertion: the insertion step of a stable sort by
`published` descending, matching
`unique_items.sort(key=lambda x: x.published, reverse=True)`. -/
def insertDesc (x : NewsItem) : List NewsItem → List NewsItem
  | [] => [x]
  | y :: ys =>
    if x.published < y.published then y :: insertDesc x ys
    else x :: y :: ys

/-- Stable sort by `published` descending (Python's stable `list.sort` with
`reverse=True`). -/
def sortDesc (l : List NewsItem) : List NewsItem :=
  l.foldr insertDesc []

/-- The merged pre-filter item list of `fetch_all` (`all_items` before the
time/relevance filter): per-source `fetch_rss` results concatenated in source
order. -/
def all_items_of (clean : String → String) (now : Int)
    (feeds : List (String × List RawEntry)) : List NewsItem :=
  (feeds.map (fun f => fetch_rss clean now f.2 f.1)).flatten

/-- `AINewsFetcher.fetch_all`: merge all sources, keep items passing the
time-window and relevance filters, deduplicate by fingerprint, sort by
`published` descending.  `cutoff_time = datetime.now() - timedelta(hours=hours)`
becomes `now - 3600 * hours`. -/
def fetch_all (clean : String → String) (fp : String → String) (now : Int)
    (hours : Nat) (feeds : List (String × List RawEntry)) : List NewsItem :=
  let cutoff : Int := now - 3600 * (hours : Int)
  let filtered := (all_items_of clean now feeds).filter
    (fun item => time_pass cutoff item && is_relevant item)
  sortDesc (dedup fp filtered)

/-- Two-digit zero padding used by the `strftime` model (the `%m`, `%d`, `%H`,
`%M` fields are zero-padded). -/
def pad2 (n : Int) : String :=
  if n < 10 then "0" ++ toString n else toString n

/-- Model of `strftime("%Y年%m月%d日")` on the integer timeline (simplified
360-day calendar: only determinism and concrete evaluation matter). -/
def strfDateCN (t : Int) : String :=
  toString (1970 + t / 31104000) ++ "年" ++ pad2 (t / 2592000 % 12 + 1) ++ "月"
    ++ pad2 (t / 86400 % 30 + 1) ++ "日"

/-- Model of `strftime("%Y-%m-%d")` on the integer timeline. -/
def strfYMD (t : Int) : String :=
  toString (1970 + t / 31104000) ++ "-" ++ pad2 (t / 2592000 % 12 + 1) ++ "-"
    ++ pad2 (t / 86400 % 30 + 1)

/-- Model of `strftime("%H:%M")` on the integer timeline. -/
def strfHM (t : Int) : String :=
  pad2 (t / 3600 % 24) ++ ":" ++ pad2 (t / 60 % 60)

/-- Model of `strftime("%Y-%m-%d %H:%M")`. -/
def strfYMDHM (t : Int) : String :=
  strfYMD t ++ " " ++ strfHM t

/-- First occurrences of the elements of a list, in order (the key order of a
Python dict built by insertion). -/
def firstSeenAux (seen : List String) : List String → List String
  | [] => []
  | s :: rest =>
    if s ∈ seen then firstSeenAux seen rest
    else s :: firstSeenAux (s :: seen) rest

/-- The `by_source` grouping of `format_as_blog_post`: sources in order of
first appearance, each paired with its items in input order. -/
def groupBySource (items : List NewsItem) : List (String × List NewsItem) :=
  (firstSeenAux [] (items.map (fun it => it.source))).map
    (fun s => (s, items.filter (fun it => it.source == s)))

/-- The `content_parts` strings a single item contributes in
`format_as_blog_post` (link line, optional truncated summary, closing tag). -/
def renderItem (item : NewsItem) : List String :=
  ("<li><strong><a href=\"" ++ item.link ++ "\" target=\"_blank\">"
      ++ item.title ++ "</a></strong>"
      ++ "<br /><small>" ++ strfHM item.published ++ "</small>")
    :: (if item.summary ≠ "" then ["<p>" ++ item.summary.take 200 ++ "...</p>"] else [])
    ++ ["</li>"]

/-- The `content_parts` strings of one source section (`<h2>` header, item
list). -/
def renderSection (sec : String × List NewsItem) : List String :=
  ["<h2>" ++ sec.1 ++ "</h2>", "<ul>"]
    ++ (sec.2.map renderItem).flatten ++ ["</ul>"]

/-- `AINewsFetcher.format_as_blog_post`.  `date` is the explicit `date`
argument (the run timestamp embedded in title and excerpt); `now` is the
wall-clock `datetime.now()` the source interpolates into the final
update-time line of the content.  Returns `(title, content, excerpt)`. -/
def format_as_blog_post (items : List NewsItem) (max_items : Nat)
    (date now : Int) : String × String × String :=
  let date_str := strfDateCN date
  let title := "AI Agent 每日资讯 - " ++ date_str
  let sliced := items.take max_items
  let header := "<p>今日精选 <strong>" ++ toString sliced.length
    ++ "</strong> 条 AI Agent 领域重要资讯。</p>"
  let footer := "<p><em>本文由 AI Agent 资讯聚合系统自动生成，更新时间："
    ++ strfYMDHM now ++ "</em></p>"
  let parts := [header, "<hr />"]
    ++ ((groupBySource sliced).map renderSection).flatten
    ++ ["<hr />", footer]
  let content := String.intercalate "\n" parts
  let excerpt := "AI Agent 领域 " ++ date_str ++ " 资讯汇总，共 "
    ++ toString sliced.length ++ " 条精选内容。"
  (title, content, excerpt)

/-- Payload of one `create_post` call (the fields `publish_multiple` and
`batch_publish` fill in). -/
structure PostData where
  title : String
  content : String
  excerpt : String
deriving DecidableEq, Repr

/-- The sink's successful response to `create_post` (the created post's
identity and URL). -/
structure PostResult where
  id : Nat
  link : String
deriving DecidableEq, Repr

/-- One per-document outcome: a published post, or the recorded error dict
(`{"error": str(e)}`, with a `"title"` key in `batch_publish`). -/
inductive PubResult where
  | published (post : PostResult)
  | failed (err : String) (title : Option String)
deriving DecidableEq, Repr

/-- Python's `"error" not in r` test on a result dict. -/
def isPublished : PubResult → Bool
  | .published _ => true
  | .failed _ _ => false

/-- The run-level success count (`len([r for r in results if "error" not in r])`,
identical in `publish_multiple` and `batch_publish`). -/
def success_count (results : List PubResult) : Nat :=
  (results.filter isPublished).length

/-- `WordPressPublisher.batch_publish`: submit each document, catching a
failed submission as a per-document error record and continuing. -/
def batch_publish (submit : PostData → Except String PostResult)
    (posts : List PostData) : List PubResult :=
  posts.map (fun p =>
    match submit p with
    | .ok r => .published r
    | .error e => .failed e (some p.title))

/-- The slicing loop of `publish_multiple`: batch `i` is
`all_items[i*k : i*k + k]`; an empty slice breaks the loop.  `fuel` is the
number of remaining loop iterations (`range(count)`). -/
def batchLoop (allItems : List NewsItem) (k : Nat) :
    Nat → Nat → List (List NewsItem)
  | _, 0 => []
  | i, fuel + 1 =>
    let b := (allItems.drop (i * k)).take k
    if b.isEmpty then [] else b :: batchLoop allItems k (i + 1) fuel

/-- The batch-count reduction of `publish_multiple`: when the corpus cannot
fill `count` batches of size `k`, the count drops to `len(all_items) // k`. -/
def reducedCount (n count k : Nat) : Nat :=
  if n < count * k then n / k else count

/-- The batches `publish_multiple` actually publishes, in order. -/
def publishBatches (allItems : List NewsItem) (count k : Nat) :
    List (List NewsItem) :=
  batchLoop allItems k 0 (reducedCount allItems.length count k)

/-- `AutoPublisher.publish_multiple` from the corpus onward: slice the ranked
corpus into batches, format each batch, submit it, and record the outcome
(`results.append(post)` on success, `results.append({"error": str(e)})` on a
caught failure). -/
def publish_multiple (submit : PostData → Except String PostResult)
    (allItems : List NewsItem) (count k : Nat) (date now : Int) :
    List PubResult :=
  (publishBatches allItems count k).enum.map (fun b =>
    let fmt := format_as_blog_post b.2 k date now
    let title := "AI Agent 资讯速递 #" ++ toString (b.1 + 1) ++ " - "
      ++ strfDateCN date
    match submit { title := title, content := fmt.2.1, excerpt := fmt.2.2 } with
    | .ok r => .published r
    | .error e => .failed e none)

/-! ### Helper lemmas: deduplication -/

/-- Membership in the dedup loop: an item is emitted iff its fingerprint was
not already seen and it is the first input item carrying that fingerprint. -/
theorem dedupGo_mem (fp : String → String) (l : List NewsItem) :
    ∀ (seen : List String) (x : NewsItem),
      x ∈ dedupGo fp seen l ↔
        fp x.link ∉ seen ∧
          l.find? (fun z => fp z.link == fp x.link) = some x := by
  induction l with
  | nil => intro seen x; simp [dedupGo]
  | cons y ys ih =>
    intro seen x
    by_cases hfp : fp y.link = fp x.link
    · by_cases hy : fp y.link ∈ seen
      · rw [dedupGo, if_pos hy, ih]
        constructor
        · rintro ⟨h1, _⟩; exact absurd (hfp ▸ hy) h1
        · rintro ⟨h1, _⟩; exact absurd (hfp ▸ hy) h1
      · rw [dedupGo, if_neg hy, List.find?_cons_of_pos _ (by simp [hfp])]
        constructor
        · intro hmem
          rcases List.mem_cons.1 hmem with heq | hin
          · subst heq; exact ⟨hy, rfl⟩
          · have h2 := ((ih (fp y.link :: seen) x).1 hin).1
            exact absurd (by rw [← hfp]; exact List.mem_cons_self _ _) h2
        · rintro ⟨_, hsome⟩
          rw [Option.some.inj hsome]
          exact List.mem_cons_self _ _
    · have hpred : ¬((fun z => fp z.link == fp x.link) y = true) := by simp [hfp]
      by_cases hy : fp y.link ∈ seen
      · rw [dedupGo, if_pos hy, ih,
          List.find?_cons_of_neg (p := fun z => fp z.link == fp x.link) (a := y) ys hpred]
      · rw [dedupGo, if_neg hy,
          List.find?_cons_of_neg (p := fun z => fp z.link == fp x.link) (a := y) ys hpred]
        constructor
        · intro hmem
          rcases List.mem_cons.1 hmem with heq | hin
          · subst heq; exact absurd rfl hfp
          · have h2 := (ih (fp y.link :: seen) x).1 hin
            exact ⟨fun hc => h2.1 (List.mem_cons_of_mem _ hc), h2.2⟩
        · rintro ⟨h1, h2⟩
          refine List.mem_cons_of_mem y ((ih (fp y.link :: seen) x).2 ⟨?_, h2⟩)
          rw [List.mem_cons, not_or]
          exact ⟨fun h => hfp h.symm, h1⟩

/-- Membership in the dedup pass: exactly the first occurrence of each
fingerprint is kept. -/
theorem dedup_mem (fp : String → String) (l : List NewsItem) (x : NewsItem) :
    x ∈ dedup fp l ↔
      l.find? (fun z => fp z.link == fp x.link) = some x := by
  simpa [dedup] using dedupGo_mem fp l [] x

/-- The dedup loop only drops elements: its output is a sublist of its
input, so relative order is preserved. -/
theorem dedupGo_sublist (fp : String → String) (l : List NewsItem) :
    ∀ seen : List String, (dedupGo fp seen l).Sublist l := by
  induction l with
  | nil => intro _; simp [dedupGo]
  | cons y ys ih =>
    intro seen
    rw [dedupGo]
    by_cases hy : fp y.link ∈ seen
    · rw [if_pos hy]; exact (ih seen).cons y
    · rw [if_neg hy]; exact (ih _).cons₂ y

/-- Every item the dedup loop emits has a fingerprint outside the initial
seen set. -/
theorem dedupGo_not_seen (fp : String → String) (l : List NewsItem)
    (seen : List String) (x : NewsItem) (h : x ∈ dedupGo fp seen l) :
    fp x.link ∉ seen :=
  ((dedupGo_mem fp l seen x).1 h).1

/-- The dedup loop's output has pairwise-distinct fingerprints. -/
theorem dedupGo_pairwise (fp : String → String) (l : List NewsItem) :
    ∀ seen : List String,
      (dedupGo fp seen l).Pairwise (fun a b => fp a.link ≠ fp b.link) := by
  induction l with
  | nil => intro _; simp [dedupGo]
  | cons y ys ih =>
    intro seen
    rw [dedupGo]
    by_cases hy : fp y.link ∈ seen
    · rw [if_pos hy]; exact ih seen
    · rw [if_neg hy]
      refine List.Pairwise.cons ?_ (ih _)
      intro b hb hEq
      exact dedupGo_not_seen fp ys _ b hb (hEq ▸ List.mem_cons_self _ _)

/-- On an input whose fingerprints avoid the seen set and are pairwise
distinct, the dedup loop is the identity. -/
theorem dedupGo_eq_self (fp : String → String) (l : List NewsItem) :
    ∀ seen : List String, (∀ x ∈ l, fp x.link ∉ seen) →
      l.Pairwise (fun a b => fp a.link ≠ fp b.link) →
      dedupGo fp seen l = l := by
  induction l with
  | nil => intro _ _ _; rfl
  | cons y ys ih =>
    intro seen hseen hpw
    rw [dedupGo, if_neg (hseen y (List.mem_cons_self y ys))]
    congr 1
    refine ih _ ?_ (List.pairwise_cons.1 hpw).2
    intro x hx
    rw [List.mem_cons, not_or]
    exact ⟨fun h => List.rel_of_pairwise_cons hpw hx h.symm,
      hseen x (List.mem_cons_of_mem y hx)⟩

/-! ### Helper lemmas: ranking (stable descending sort) -/

/-- Inserting permutes: the insertion step only relocates the new element. -/
theorem insertDesc_perm (x : NewsItem) (l : List NewsItem) :
    (insertDesc x l).Perm (x :: l) := by
  induction l with
  | nil => rfl
  | cons y ys ih =>
    rw [insertDesc]
    by_cases h : x.published < y.published
    · rw [if_pos h]
      exact (ih.cons y).trans (List.Perm.swap x y ys)
    · rw [if_neg h]

/-- The Ranker permutes its input (no item gained or lost by sorting). -/
theorem sortDesc_perm (l : List NewsItem) : (sortDesc l).Perm l := by
  induction l with
  | nil => rfl
  | cons a l ih =>
    exact (insertDesc_perm a (sortDesc l)).trans (ih.cons a)

/-- Insertion preserves the descending-by-`published` invariant. -/
theorem insertDesc_pairwise (x : NewsItem) (l : List NewsItem)
    (h : l.Pairwise (fun a b => b.published ≤ a.published)) :
    (insertDesc x l).Pairwise (fun a b => b.published ≤ a.published) := by
  induction l with
  | nil => simp [insertDesc]
  | cons y ys ih =>
    rw [insertDesc]
    rcases List.pairwise_cons.1 h with ⟨hy, hys⟩
    by_cases hlt : x.published < y.published
    · rw [if_pos hlt]
      refine List.pairwise_cons.2 ⟨?_, ih hys⟩
      intro b hb
      rcases List.mem_cons.1 ((insertDesc_perm x ys).mem_iff.1 hb) with heq | hbin
      · subst heq; exact le_of_lt hlt
      · exact hy b hbin
    · rw [if_neg hlt]
      refine List.pairwise_cons.2 ⟨?_, h⟩
      intro b hb
      rcases List.mem_cons.1 hb with heq | hbin
      · subst heq; exact le_of_not_lt hlt
      · exact le_trans (hy b hbin) (le_of_not_lt hlt)

/-- The Ranker's output is sorted by `published` descending. -/
theorem sortDesc_pairwise (l : List NewsItem) :
    (sortDesc l).Pairwise (fun a b => b.published ≤ a.published) := by
  induction l with
  | nil => simp [sortDesc]
  | cons a l ih => exact insertDesc_pairwise a (sortDesc l) ih

/-- Insertion is stable: filtering for any fixed timestamp, the inserted
element lands in front of the equal-timestamp block. -/
theorem insertDesc_filter (t : Int) (x : NewsItem) (l : List NewsItem) :
    (insertDesc x l).filter (fun z => z.published == t)
      = (x :: l).filter (fun z => z.published == t) := by
  induction l with
  | nil => rfl
  | cons y ys ih =>
    rw [insertDesc]
    by_cases hlt : x.published < y.published
    · rw [if_pos hlt]
      by_cases hx : x.published = t
      · have hy : ¬(y.published = t) := by
          intro hyt; rw [hx] at hlt; rw [hyt] at hlt; exact lt_irrefl t hlt
        simp [List.filter_cons, hx, hy, ih]
      · simp [List.filter_cons, hx, ih]
    · rw [if_neg hlt]

/-- The Ranker is stable: the subsequence of items carrying any fixed
timestamp is unchanged by sorting. -/
theorem sortDesc_filter (t : Int) (l : List NewsItem) :
    (sortDesc l).filter (fun z => z.published == t)
      = l.filter (fun z => z.published == t) := by
  induction l with
  | nil => rfl
  | cons a l ih =>
    have h1 : sortDesc (a :: l) = insertDesc a (sortDesc l) := rfl
    rw [h1, insertDesc_filter, List.filter_cons, List.filter_cons, ih]

/-! ### Helper lemmas: batch partitioning -/

/-- While the remaining slices all fit inside the corpus, the slicing loop of
`publish_multiple` emits one full slice per iteration: `fuel` batches, each of
exactly `k` consecutive items, jointly covering `fuel * k` consecutive corpus
items from position `i * k` on. -/
theorem batchLoop_spec (l : List NewsItem) (k : Nat) (hk : 0 < k) :
    ∀ (fuel i : Nat), i * k + fuel * k ≤ l.length →
      (batchLoop l k i fuel).length = fuel ∧
      (∀ b ∈ batchLoop l k i fuel, b.length = k) ∧
      (batchLoop l k i fuel).flatten = (l.drop (i * k)).take (fuel * k) := by
  intro fuel
  induction fuel with
  | zero => intro i h; simp [batchLoop]
  | succ f ih =>
    intro i h
    have hexp : i * k + (f + 1) * k = i * k + f * k + k := by ring
    rw [hexp] at h
    have h1 : i * k + k ≤ l.length :=
      le_trans (Nat.add_le_add_right (Nat.le_add_right (i * k) (f * k)) k) h
    have hlen : ((l.drop (i * k)).take k).length = k := by
      rw [List.length_take, List.length_drop]
      have ha : i * k + k ≤ l.length := h1
      omega
    have hne : ¬(((l.drop (i * k)).take k).isEmpty = true) := by
      rw [List.isEmpty_iff]
      intro he
      rw [he] at hlen
      simp at hlen
      omega
    have hih := ih (i + 1) (by
      have : (i + 1) * k + f * k = i * k + f * k + k := by ring
      rw [this]; exact h)
    rw [batchLoop]
    simp only [if_neg hne]
    refine ⟨by simp [hih.1], ?_, ?_⟩
    · intro b hb
      rcases List.mem_cons.1 hb with heq | hbin
      · rw [heq]; exact hlen
      · exact hih.2.1 b hbin
    · rw [List.flatten_cons, hih.2.2]
      have hd : l.drop ((i + 1) * k) = (l.drop (i * k)).drop k := by
        rw [List.drop_drop]
        congr 1
        ring
      rw [hd, show (f + 1) * k = k + f * k from by ring, List.take_add]

/-- The batch-count reduction computes `min count (n / k)`. -/
theorem reducedCount_eq_min (n count k : Nat) (hk : 0 < k) :
    reducedCount n count k = min count (n / k) := by
  rw [reducedCount]
  by_cases h : n < count * k
  · rw [if_pos h]
    exact (Nat.min_eq_right (le_of_lt ((Nat.div_lt_iff_lt_mul hk).2 h))).symm
  · rw [if_neg h]
    exact (Nat.min_eq_left ((Nat.le_div_iff_mul_le hk).2 (le_of_not_lt h))).symm

/-! ### Helper lemmas: normalization -/

/-- The per-source normalization loop never yields more items than it reads. -/
theorem normalizeLoop_length (clean : String → String) (now : Int)
    (src : String) (entries : List RawEntry) :
    (normalizeLoop clean now src entries).length ≤ entries.length := by
  induction entries with
  | nil => simp [normalizeLoop]
  | cons e es ih =>
    rw [normalizeLoop]
    cases normalizeEntry clean now src e with
    | none => simp
    | some item => simpa using ih

/-- On a prefix of entries that all normalize, the loop maps each entry to
its item; the first failing entry ends the loop, dropping everything after
it. -/
theorem normalizeLoop_append (clean : String → String) (now : Int)
    (src : String) (b : RawEntry) (rest : List RawEntry)
    (hb : normalizeEntry clean now src b = none) :
    ∀ gs : List RawEntry, (∀ e ∈ gs, (normalizeEntry clean now src e).isSome = true) →
      normalizeLoop clean now src (gs ++ b :: rest)
        = gs.filterMap (normalizeEntry clean now src) := by
  intro gs
  induction gs with
  | nil => intro _; simp [normalizeLoop, hb]
  | cons g gs ih =>
    intro hall
    have hg := hall g (List.mem_cons_self g gs)
    rcases Option.isSome_iff_exists.1 hg with ⟨item, hitem⟩
    rw [List.cons_append, normalizeLoop, hitem,
      ih (fun e he => hall e (List.mem_cons_of_mem g he)), List.filterMap_cons, hitem]

/-! ### Claim theorems -/

/-- C5: for every input sequence, the Deduplicator's output has
pairwise-distinct fingerprints, preserves the relative input order (it is a
sublist of the input), and contains exactly the first occurrence of each
fingerprint — so when two sources report the same link, the item of the
source encountered first is the one kept. -/
theorem dedup_first_occurrence_spec (fp : String → String)
    (l : List NewsItem) :
    (dedup fp l).Pairwise (fun a b => fp a.link ≠ fp b.link) ∧
    (dedup fp l).Sublist l ∧
    (∀ x : NewsItem, x ∈ dedup fp l ↔
      l.find? (fun z => fp z.link == fp x.link) = some x) :=
  ⟨dedupGo_pairwise fp l [], dedupGo_sublist fp l [], fun x => dedup_mem fp l x⟩

/-- C6: the Ranker permutes its input into an order sorted by `published`
descending (any earlier item's timestamp is ≥ any later one's, so items with
distinct timestamps have the newer first), and the sort is stable: items
sharing a timestamp keep the relative order of the input sequence (the
Deduplicator's first-source-seen order). -/
theorem ranker_sorted_stable_spec (l : List NewsItem) :
    (sortDesc l).Perm l ∧
    (sortDesc l).Pairwise (fun a b => b.published ≤ a.published) ∧
    (∀ t : Int, (sortDesc l).filter (fun z => z.published == t)
      = l.filter (fun z => z.published == t)) :=
  ⟨sortDesc_perm l, sortDesc_pairwise l, fun t => sortDesc_filter t l⟩

/-- C7: the Deduplicator is idempotent — applying the seen-fingerprint
filtering pass to its own output removes nothing. -/
theorem dedup_idempotent (fp : String → String) (l : List NewsItem) :
    dedup fp (dedup fp l) = dedup fp l := by
  rw [dedup]
  exact dedupGo_eq_self fp (dedup fp l) []
    (fun x _ => List.not_mem_nil _) (dedupGo_pairwise fp l [])

/-- C8: batch publishing records one outcome per submitted document, in input
order (a failed submission is caught as an error record and later documents
are still attempted), and the aggregate success count is the number of
non-error results. -/
theorem batch_publish_isolation_spec
    (submit : PostData → Except String PostResult) (posts : List PostData) :
    (batch_publish submit posts).length = posts.length ∧
    (∀ i : Nat, (batch_publish submit posts)[i]? =
      (posts[i]?).map (fun p =>
        match submit p with
        | .ok r => PubResult.published r
        | .error e => PubResult.failed e (some p.title))) ∧
    success_count (batch_publish submit posts)
      = (posts.filter (fun p =>
          match submit p with
          | .ok _ => true
          | .error _ => false)).length := by
  refine ⟨by simp [batch_publish], ?_, ?_⟩
  · intro i
    simp [batch_publish]
  · rw [success_count, batch_publish, List.filter_map, List.length_map]
    congr 1
    apply List.filter_congr
    intro p _
    simp only [Function.comp_apply]
    cases h : submit p <;> simp [isPublished, h]

/-- C9: the time-window test of `fetch_all` passes an item exactly when its
`published` timestamp is at or after the cutoff; and an item whose timestamp
the Normalizer degraded to `now` (no publish or update time in the raw entry)
passes for every non-negative window, since the cutoff is `now` minus the
window. -/
theorem time_window_spec :
    (∀ (cutoff : Int) (item : NewsItem),
      time_pass cutoff item = true ↔ cutoff ≤ item.published) ∧
    (∀ (clean : String → String) (now : Int) (src : String) (e : RawEntry)
      (item : NewsItem),
      e.published_parsed = none → e.updated_parsed = none →
      normalizeEntry clean now src e = some item →
      ∀ hours : Nat, time_pass (now - 3600 * (hours : Int)) item = true) := by
  constructor
  · intro cutoff item
    simp [time_pass]
  · intro clean now src e item h1 h2 h3 hours
    have hpub : item.published = now := by
      rw [normalizeEntry, h1, h2] at h3
      simp only [Option.map_some] at h3
      rw [← Option.some.inj h3]
    rw [time_pass, hpub]
    simp only [decide_eq_true_eq]
    have : (0 : Int) ≤ 3600 * (hours : Int) := by positivity
    omega

/-- C10: each source contributes at most 20 items per run: `fetch_rss`
normalizes at most the first 20 raw entries of the feed, before the merge and
the filters. -/
theorem fetch_rss_per_source_cap (clean : String → String) (now : Int)
    (entries : List RawEntry) (src : String) :
    (fetch_rss clean now entries src).length ≤ 20 ∧
    fetch_rss clean now entries src = fetch_rss clean now (entries.take 20) src := by
  constructor
  · exact le_trans (normalizeLoop_length clean now src (entries.take 20))
      (List.length_take_le 20 entries)
  · rw [fetch_rss, fetch_rss, List.take_take, Nat.min_self]

/-- C3 (amended): a fetched item appears in the final corpus returned by
`fetch_all` iff it passes both the relevance and time-window filters AND it
is the first passing item carrying its fingerprint; deduplication removes
later passing items whose link fingerprint was already seen. -/
theorem corpus_membership_spec (clean fp : String → String) (now : Int)
    (hours : Nat) (feeds : List (String × List RawEntry)) (item : NewsItem) :
    item ∈ fetch_all clean fp now hours feeds ↔
      ((time_pass (now - 3600 * (hours : Int)) item && is_relevant item) = true ∧
        ((all_items_of clean now feeds).filter
            (fun z => time_pass (now - 3600 * (hours : Int)) z && is_relevant z)).find?
          (fun z => fp z.link == fp item.link) = some item) := by
  simp only [fetch_all]
  constructor
  · intro h
    have hd := (sortDesc_perm _).mem_iff.1 h
    have hfind := (dedup_mem fp _ item).1 hd
    exact ⟨(List.mem_filter.1 (List.mem_of_find?_eq_some hfind)).2, hfind⟩
  · rintro ⟨_, hfind⟩
    exact (sortDesc_perm _).mem_iff.2 ((dedup_mem fp _ item).2 hfind)

/-- C1 (amended): with batch size `k > 0`, `publish_multiple` produces
exactly `min requested (floor (N / k))` batches — `floor (N / k)` when the
corpus cannot fill the requested count, the requested count otherwise — each
of exactly `k` consecutive corpus items, jointly the first
`min requested (floor (N / k)) * k` items in order (so no item is repeated
and the remainder shorter than `k` is dropped, not published short). -/
theorem publish_multiple_partition_spec
    (submit : PostData → Except String PostResult) (l : List NewsItem)
    (count k : Nat) (date now : Int) (hk : 0 < k) :
    (publishBatches l count k).length = min count (l.length / k) ∧
    (∀ b ∈ publishBatches l count k, b.length = k) ∧
    (publishBatches l count k).flatten
      = l.take (min count (l.length / k) * k) ∧
    (publish_multiple submit l count k date now).length
      = min count (l.length / k) := by
  have hc : min count (l.length / k) * k ≤ l.length :=
    le_trans (Nat.mul_le_mul_right k (min_le_right _ _)) (Nat.div_mul_le_self _ _)
  have h0 : 0 * k + min count (l.length / k) * k ≤ l.length := by simpa using hc
  have heq : publishBatches l count k
      = batchLoop l k 0 (min count (l.length / k)) := by
    rw [publishBatches, reducedCount_eq_min _ _ _ hk]
  have hspec := batchLoop_spec l k hk (min count (l.length / k)) 0 h0
  rw [heq]
  refine ⟨hspec.1, hspec.2.1, ?_, ?_⟩
  · rw [hspec.2.2]
    simp
  · rw [publish_multiple, heq, List.length_map, List.enum_length, hspec.1]

/-- C2 (amended): `fetch_rss` reads at most the first 20 entries of a
source; entries before the first malformed one are normalized and kept, but
the malformed entry ends the loop, so the remaining entries of that same
source are dropped (not skipped-and-continued); a fully failing source
contributes zero items and leaves the rest of the run unchanged. -/
theorem source_failure_isolation_spec :
    (∀ (clean : String → String) (now : Int) (entries : List RawEntry)
      (src : String),
      fetch_rss clean now entries src
        = normalizeLoop clean now src (entries.take 20)) ∧
    (∀ (clean : String → String) (now : Int) (src : String)
      (gs : List RawEntry) (b : RawEntry) (rest : List RawEntry),
      (∀ e ∈ gs, (normalizeEntry clean now src e).isSome = true) →
      normalizeEntry clean now src b = none →
      normalizeLoop clean now src (gs ++ b :: rest)
        = gs.filterMap (normalizeEntry clean now src)) ∧
    (∀ (clean fp : String → String) (now : Int) (hours : Nat)
      (pre : List (String × List RawEntry)) (bad : String × List RawEntry)
      (post : List (String × List RawEntry)),
      fetch_rss clean now bad.2 bad.1 = [] →
      fetch_all clean fp now hours (pre ++ bad :: post)
        = fetch_all clean fp now hours (pre ++ post)) := by
  refine ⟨fun _ _ _ _ => rfl, ?_, ?_⟩
  · intro clean now src gs b rest hall hb
    exact normalizeLoop_append clean now src b rest hb gs hall
  · intro clean fp now hours pre bad post hbad
    have hall : all_items_of clean now (pre ++ bad :: post)
        = all_items_of clean now (pre ++ post) := by
      simp [all_items_of, hbad]
    simp only [fetch_all, hall]

/-- C4 (amended): the title and the excerpt of `format_as_blog_post` are
deterministic in the item list, `max_items` and the `date` argument alone;
the content additionally depends on the wall-clock time at invocation (its
trailing update-time line), and the whole triple is deterministic once that
time is fixed too. -/
theorem format_determinism_spec (items : List NewsItem) (max_items : Nat)
    (date n1 n2 : Int) :
    (format_as_blog_post items max_items date n1).1
      = (format_as_blog_post items max_items date n2).1 ∧
    (format_as_blog_post items max_items date n1).2.2
      = (format_as_blog_post items max_items date n2).2.2 ∧
    (n1 = n2 → format_as_blog_post items max_items date n1
      = format_as_blog_post items max_items date n2) :=
  ⟨rfl, rfl, fun h => by rw [h]⟩

/-! ### Concrete inputs for counterexamples and witnesses -/

/-- A well-formed entry: relevant title, valid publish time. -/
def entryGoodA : RawEntry :=
  ⟨some "GPT news", some "L1", some "about gpt", none, some (some 100), none⟩

/-- A malformed entry: `published_parsed` is present and truthy but its time
tuple makes `datetime(*tuple[:6])` raise. -/
def entryBadA : RawEntry :=
  ⟨some "bad entry", some "L2", none, none, some none, none⟩

/-- A well-formed entry positioned after the malformed one. -/
def entryGoodB : RawEntry :=
  ⟨some "Claude agent", some "L3", none, none, some (some 50), none⟩

/-- The normalization of `entryGoodB` for source "A" (with identity
cleaning). -/
def itemGoodB : NewsItem := ⟨"Claude agent", "L3", "", "A", 50⟩

/-- An entry with neither publish nor update time: the Normalizer degrades
its timestamp to now. -/
def entryNoTime : RawEntry :=
  ⟨some "undated", some "L9", none, none, none, none⟩

/-- The normalization of `entryNoTime` at run time 5. -/
def itemNoTime : NewsItem := ⟨"undated", "L9", "", "S", 5⟩

/-- One source reporting the same link twice with different titles, both
entries relevant and fresh. -/
def feedsShared : List (String × List RawEntry) :=
  [("A", [⟨some "GPT one", some "L", none, none, some (some 100), none⟩,
          ⟨some "GPT two", some "L", none, none, some (some 90), none⟩])]

/-- The second (duplicate-link) fetched item of `feedsShared`. -/
def itemShared : NewsItem := ⟨"GPT two", "L", "", "A", 90⟩

/-- A two-item ranked corpus. -/
def corpusTwo : List NewsItem :=
  [⟨"a", "1", "", "A", 1⟩, ⟨"b", "2", "", "A", 2⟩]

/-! ### Counterexamples -/

/-- C1 counterexample: with a corpus of $N = 2$ items, batch size `k = 1` and
`count = 1` requested batch, `publish_multiple` produces 1 batch, not
`floor (N / k) = 2` as the claim states. -/
theorem publishBatches_count_ne_floor :
    (publishBatches corpusTwo 1 1).length ≠ corpusTwo.length / 1 := by decide

/-- C2 counterexample: the third entry of the source normalizes fine, yet it
is absent from `fetch_rss`'s output because the second entry is malformed —
the malformed entry causes the remaining entries of the same source to be
lost, instead of being skipped individually. -/
theorem fetch_rss_not_entry_isolated :
    normalizeEntry id 0 "A" entryGoodB = some itemGoodB ∧
    itemGoodB ∉ fetch_rss id 0 [entryGoodA, entryBadA, entryGoodB] "A" := by
  decide

/-- C3 counterexample: a fetched item that passes both the time-window and
relevance filters but shares its link fingerprint with an earlier passing
item does not appear in the final corpus, refuting the claimed
iff-conjunction. -/
theorem fetch_all_not_filter_conjunction :
    (time_pass (1000 - 3600 * ((1 : Nat) : Int)) itemShared
        && is_relevant itemShared) = true ∧
    itemShared ∈ all_items_of id 1000 feedsShared ∧
    itemShared ∉ fetch_all id id 1000 1 feedsShared := by decide

/-- C4 counterexample: two invocations with the same (empty) item list, the
same `max_items` and the same `date` argument but different wall-clock times
return different content strings (the trailing update-time line differs). -/
theorem format_content_not_date_deterministic :
    (format_as_blog_post [] 15 0 0).2.1
      ≠ (format_as_blog_post [] 15 0 60).2.1 := by decide

/-! ### Witnesses -/

/-- Witness for the C1 theorem: concrete two-item corpus, `count = 2`,
`k = 1`. -/
theorem publish_multiple_partition_spec_witness :
    0 < 1 ∧ (publishBatches corpusTwo 2 1).length = min 2 (corpusTwo.length / 1) :=
  ⟨by decide, (publish_multiple_partition_spec (fun _ => Except.error "down")
    corpusTwo 2 1 0 0 (by decide)).1⟩

/-- Witness for the C2 theorem: a source whose only entry is malformed
contributes nothing and leaves the rest of the run unchanged. -/
theorem source_failure_isolation_spec_witness :
    fetch_rss id 0 ("B", [entryBadA]).2 ("B", [entryBadA]).1 = [] ∧
    fetch_all id id 0 24 ([("A", [entryGoodA])] ++ ("B", [entryBadA]) :: [])
      = fetch_all id id 0 24 ([("A", [entryGoodA])] ++ []) :=
  ⟨by decide, source_failure_isolation_spec.2.2 id id 0 24
    [("A", [entryGoodA])] ("B", [entryBadA]) [] (by decide)⟩

/-- Witness for the C4 theorem: equal wall-clock times give equal output
triples. -/
theorem format_determinism_spec_witness :
    format_as_blog_post [] 15 0 7 = format_as_blog_post [] 15 0 7 :=
  (format_determinism_spec [] 15 0 7 7).2.2 rfl

/-- Witness for the C9 theorem: an undated entry normalized at run time 5
passes the 24-hour window filter. -/
theorem time_window_spec_witness :
    normalizeEntry id 5 "S" entryNoTime = some itemNoTime ∧
    time_pass (5 - 3600 * ((24 : Nat) : Int)) itemNoTime = true :=
  ⟨by decide, time_window_spec.2 id 5 "S" entryNoTime itemNoTime rfl rfl
    (by decide) 24⟩
